import Mathlib

/-!
Verification of the summary-audit script `scripts/validateSummaries.mjs`.

The script audits a source tree: for every git-tracked file it checks whether a
summary artifact `summary/<relativePath>.summary.txt` exists and is at least as
new as the source file, consults a per-scope dismissal set, reports missing and
outdated (stale) summaries, and lets the user dismiss the findings (persisting
the enlarged dismissal set).

Shallow embedding conventions:
- A tracked file is its path relative to the scope root (the script joins the
  scope root and later takes `path.relative` back, a round trip we elide).
- Filesystem metadata is a record of functions: artifact existence is a `Bool`
  (`fs.existsSync` never throws); `statSync` may throw, so modification times
  are `Option Nat` (`none` models a thrown stat error). JS `Date` comparison
  via `>` is numeric, modelled on `Nat`.
- JS exceptions are `Except VErr`; the JS `forEach` body aborts the whole loop
  when a callback throws, matching the short-circuiting recursion below.
- `[...new Set(l)]` is first-occurrence deduplication, `jsSetDedup`.
-/

/-- Error values thrown by the script's collaborators: a failed `statSync`
(metadata) or a failed `fs.writeJSON` of the dismissal store (persistence). -/
inductive VErr where
  | metadataError
  | persistenceError
deriving DecidableEq, Repr

/-- Does `needle` occur as a contiguous sublist of `hay`? -/
def includesChars (needle : List Char) : List Char → Bool
  | [] => needle.isPrefixOf ([] : List Char)
  | c :: cs => needle.isPrefixOf (c :: cs) || includesChars needle cs

/-- JS `haystack.includes(needle)`: substring containment. -/
def includesStr (haystack needle : String) : Bool :=
  includesChars needle.data haystack.data

/-- JS `s.startsWith(p)`: prefix test on the character sequence. -/
def startsWithStr (s p : String) : Bool :=
  p.data.isPrefixOf s.data

/-- The filter of `getGitTrackedFiles`, applied to each line of
`git ls-files` output:
`file && !file.includes('node_modules') && !file.startsWith('summary/')`. -/
def keepFile (file : String) : Bool :=
  !(file == "") && !(includesStr file "node_modules") && !(startsWithStr file "summary/")

/-- Split a character list at every occurrence of `c`; a trailing separator
produces a trailing empty chunk, as JS `split` does. -/
def splitChar (c : Char) : List Char → List (List Char)
  | [] => [[]]
  | x :: xs =>
    if x = c then [] :: splitChar c xs
    else
      match splitChar c xs with
      | [] => [[x]]
      | h :: t => (x :: h) :: t

/-- JS `stdout.split(newline)`. -/
def splitLines (s : String) : List String :=
  (splitChar (Char.ofNat 10) s.data).map String.mk

/-- `getGitTrackedFiles`: on success, split stdout on newlines and filter; on a
failed `git ls-files` invocation the error is logged and the empty list is
returned (the `catch` block of the script). -/
def getGitTrackedFiles (gitResult : Except Unit String) : List String :=
  match gitResult with
  | Except.ok stdout => (splitLines stdout).filter keepFile
  | Except.error _ => []

/-- Filesystem facts observed by one scope's pass, keyed by relative path. -/
structure FSView where
  artifactExists : String → Bool
  sourceStat : String → Option Nat
  artifactStat : String → Option Nat

/-- The classification loop of `validateSummaries` (lines 55-71): walk the
tracked files in order, pushing to `missingSummaries` when the artifact does
not exist, and to `outdatedSummaries` when the source mtime is strictly
greater than the artifact mtime and the path is not dismissed. A `statSync`
throw aborts the loop. -/
def classifyFiles (fsys : FSView) (dism : List String) :
    List String → Except VErr (List String × List String)
  | [] => Except.ok ([], [])
  | rel :: rest =>
    if fsys.artifactExists rel then
      match fsys.sourceStat rel, fsys.artifactStat rel with
      | some smt, some amt =>
        match classifyFiles fsys dism rest with
        | Except.error e => Except.error e
        | Except.ok (m, s) =>
          if amt < smt && !(dism.contains rel) then Except.ok (m, rel :: s)
          else Except.ok (m, s)
      | _, _ => Except.error VErr.metadataError
    else
      match classifyFiles fsys dism rest with
      | Except.error e => Except.error e
      | Except.ok (m, s) => Except.ok (rel :: m, s)

/-- `[...new Set(l)]`: deduplication keeping the first occurrence of each
element, in order. -/
def jsSetDedup : List String → List String
  | [] => []
  | x :: xs => x :: (jsSetDedup xs).filter (fun y => y ≠ x)

/-- Line 110: `dismissed[dirLabel] = [...new Set([...dismissed[dirLabel], ...toDismiss])]`. -/
def recordDismissals (old toDismiss : List String) : List String :=
  jsSetDedup (old ++ toDismiss)

/-- The three choices offered by the prompt (lines 98-102). -/
inductive UserAction where
  | updateManually
  | dismiss
  | ignore
deriving DecidableEq, Repr

/-- Lines 106-115: apply the chosen action to the scope's dismissal set.
Returns the new dismissal set and whether the store was persisted
(`fs.writeJSON`); a failing write throws. `Update summaries` and
`Ignore for now` only print a message. -/
def applyDecision (a : UserAction) (d missing stale : List String) (saveOk : Bool) :
    Except VErr (List String × Bool) :=
  match a with
  | UserAction.dismiss =>
    if saveOk then Except.ok (recordDismissals d (missing ++ stale), true)
    else Except.error VErr.persistenceError
  | UserAction.updateManually => Except.ok (d, false)
  | UserAction.ignore => Except.ok (d, false)

/-- One call of `validateSummaries` for a scope: enumerate, classify, and —
only when there are findings — prompt and apply the decision (lines 73-76
return early when both lists are empty). Result: the missing list, the stale
list, and the scope's dismissal set afterwards. -/
def scopeStep (gitResult : Except Unit String) (fsys : FSView) (d : List String)
    (a : UserAction) (saveOk : Bool) :
    Except VErr (List String × List String × List String) :=
  match classifyFiles fsys d (getGitTrackedFiles gitResult) with
  | Except.error e => Except.error e
  | Except.ok (m, s) =>
    if m.isEmpty && s.isEmpty then Except.ok (m, s, d)
    else
      match applyDecision a d m s saveOk with
      | Except.error e => Except.error e
      | Except.ok (d2, _) => Except.ok (m, s, d2)

/-- Inputs for one scope in a multi-scope run. Each selected scope has a
distinct label (`Backend`, `Frontend`), so its slot in the global `dismissed`
mapping is independent of the others; we carry it per scope. -/
structure ScopeInput where
  gitResult : Except Unit String
  fsys : FSView
  dism : List String
  action : UserAction
  saveOk : Bool

/-- The entry-point loop (lines 132-138): scopes are processed sequentially by
`for ... await validateSummaries(...)`; an exception escapes the loop into the
single top-level `.catch`, which exits the process, so a failing scope ends
the whole run. -/
def runAll : List ScopeInput → Except VErr (List (List String × List String × List String))
  | [] => Except.ok []
  | inp :: rest =>
    match scopeStep inp.gitResult inp.fsys inp.dism inp.action inp.saveOk with
    | Except.error e => Except.error e
    | Except.ok r =>
      match runAll rest with
      | Except.error e => Except.error e
      | Except.ok rs => Except.ok (r :: rs)

-- Concrete fixtures used to instantiate the theorems below ------------------

/-- A small filesystem view: `a.txt` has no artifact, `b.txt` has a stale
artifact (source 10, artifact 5), `c.txt` has an artifact with equal times
(7 = 7), `d.txt` has a newer artifact (source 3, artifact 9). -/
def fsW1 : FSView where
  artifactExists := fun r => r == "b.txt" || r == "c.txt" || r == "d.txt"
  sourceStat := fun r =>
    if r == "b.txt" then some 10
    else if r == "c.txt" then some 7
    else if r == "d.txt" then some 3
    else none
  artifactStat := fun r =>
    if r == "b.txt" then some 5
    else if r == "c.txt" then some 7
    else if r == "d.txt" then some 9
    else none

/-- Same observations as `fsW1` on `b.txt`, `c.txt`, `d.txt`, different
elsewhere. -/
def fsW2 : FSView where
  artifactExists := fun r => !(r == "a.txt")
  sourceStat := fun r =>
    if r == "b.txt" then some 10
    else if r == "c.txt" then some 7
    else if r == "d.txt" then some 3
    else if r == "a.txt" then none
    else some 99
  artifactStat := fun r =>
    if r == "b.txt" then some 5
    else if r == "c.txt" then some 7
    else if r == "d.txt" then some 9
    else if r == "a.txt" then none
    else some 0

def wfiles : List String := ["a.txt", "b.txt", "c.txt", "d.txt"]

/-- A view on which every source stat throws (a `MetadataError` scenario). -/
def fsBad : FSView where
  artifactExists := fun _ => true
  sourceStat := fun _ => none
  artifactStat := fun _ => some 0

/-- A scope whose pass hits a metadata error on its single tracked file. -/
def inpBad : ScopeInput where
  gitResult := Except.ok "a.txt"
  fsys := fsBad
  dism := []
  action := UserAction.ignore
  saveOk := true

/-- A scope whose pass succeeds, finding one stale file. -/
def inpGood : ScopeInput where
  gitResult := Except.ok "b.txt"
  fsys := fsW1
  dism := []
  action := UserAction.ignore
  saveOk := true

-- Basic facts about jsSetDedup ----------------------------------------------

theorem mem_jsSetDedup (a : String) (l : List String) :
    a ∈ jsSetDedup l ↔ a ∈ l := by
  induction l with
  | nil => simp [jsSetDedup]
  | cons x xs ih =>
    simp only [jsSetDedup, List.mem_cons, List.mem_filter, ih]
    by_cases hax : a = x
    · simp [hax]
    · simp [hax]

theorem nodup_jsSetDedup (l : List String) : (jsSetDedup l).Nodup := by
  induction l with
  | nil => simp [jsSetDedup]
  | cons x xs ih =>
    simp only [jsSetDedup, List.nodup_cons]
    constructor
    · intro hmem
      have := (List.mem_filter.mp hmem).2
      simp at this
    · exact ih.filter _

theorem jsSetDedup_eq_self (l : List String) (h : l.Nodup) : jsSetDedup l = l := by
  induction l with
  | nil => rfl
  | cons x xs ih =>
    rcases List.nodup_cons.mp h with ⟨hx, hxs⟩
    simp only [jsSetDedup, ih hxs]
    congr 1
    apply List.filter_eq_self.mpr
    intro a ha
    simp only [decide_eq_true_eq]
    intro hax
    exact hx (hax ▸ ha)

theorem jsSetDedup_idem (l : List String) :
    jsSetDedup (jsSetDedup l) = jsSetDedup l :=
  jsSetDedup_eq_self _ (nodup_jsSetDedup l)

/-- Appending elements already present (up to a filter) does not change the
deduplicated, filtered list. -/
theorem jsSetDedup_append_filter (ys : List String) (p : String → Bool) :
    ∀ l : List String, (∀ y ∈ ys, y ∈ l ∨ p y = false) →
      (jsSetDedup (l ++ ys)).filter p = (jsSetDedup l).filter p := by
  intro l
  induction l generalizing p with
  | nil =>
    intro h
    simp only [List.nil_append, jsSetDedup]
    rw [List.filter_eq_nil_iff.mpr, List.filter_nil]
    intro a ha
    rcases h a ((mem_jsSetDedup a ys).mp ha) with h1 | h1
    · simp at h1
    · simp [h1]
  | cons x xs ih =>
    intro h
    simp only [List.cons_append, jsSetDedup, List.filter_cons]
    rw [List.filter_filter, List.filter_filter]
    by_cases hpx : p x = true
    · simp only [hpx, if_true]
      congr 1
      apply ih
      intro y hy
      rcases h y hy with h1 | h1
      · rcases List.mem_cons.mp h1 with h2 | h2
        · right; simp [h2]
        · left; exact h2
      · right; simp [h1]
    · simp only [Bool.not_eq_true] at hpx
      simp only [hpx, Bool.false_eq_true, if_false]
      apply ih
      intro y hy
      rcases h y hy with h1 | h1
      · rcases List.mem_cons.mp h1 with h2 | h2
        · right; simp [h2, hpx]
        · left; exact h2
      · right; simp [h1]

-- Claim theorems -------------------------------------------------------------

/-- C5: recording dismissals is idempotent: dismissing the same paths twice
yields the very same per-scope dismissal set (hence the same cardinality) as
dismissing them once. -/
theorem recordDismissals_idempotent (d ps : List String) :
    recordDismissals (recordDismissals d ps) ps = recordDismissals d ps := by
  unfold recordDismissals
  have h := jsSetDedup_append_filter ps (fun _ => true) (jsSetDedup (d ++ ps))
    (by
      intro y hy
      left
      exact (mem_jsSetDedup y (d ++ ps)).mpr (List.mem_append_right d hy))
  simpa [List.filter_true, jsSetDedup_idem] using h

/-- C6: choosing Dismiss replaces the scope's dismissal set by the union of its
previous contents with the missing and stale paths of the pass, and persists
it; choosing Update summaries or Ignore leaves the set unchanged and does not
persist. -/
theorem applyDecision_spec (d m s : List String) (sv : Bool) :
    (applyDecision UserAction.dismiss d m s true =
        Except.ok (recordDismissals d (m ++ s), true)
      ∧ ∀ p, p ∈ recordDismissals d (m ++ s) ↔ (p ∈ d ∨ p ∈ m ∨ p ∈ s))
    ∧ applyDecision UserAction.updateManually d m s sv = Except.ok (d, false)
    ∧ applyDecision UserAction.ignore d m s sv = Except.ok (d, false) := by
  refine ⟨⟨rfl, ?_⟩, rfl, rfl⟩
  intro p
  unfold recordDismissals
  rw [mem_jsSetDedup]
  simp [or_assoc]

/-- C9: the tracked-file filter drops any line containing the substring
`node_modules` anywhere (including a file merely named after it), drops empty
lines, and drops exactly the lines starting with the prefix `summary/` — a
`summary` directory nested deeper survives the filter. -/
theorem keepFile_spec (f : String) :
    (includesStr f "node_modules" = true → keepFile f = false)
    ∧ (f = "" → keepFile f = false)
    ∧ (startsWithStr f "summary/" = true → keepFile f = false)
    ∧ keepFile "my_node_modules_notes.txt" = false
    ∧ keepFile "a/summary/b.txt" = true := by
  refine ⟨?_, ?_, ?_, by decide, by decide⟩
  · intro h
    simp [keepFile, h]
  · intro h
    subst h
    decide
  · intro h
    simp [keepFile, h]

/-- Witness for C9 at concrete inputs, discharging each hypothesis. -/
theorem keepFile_spec_witness :
    keepFile "docs/my_node_modules_notes.txt" = false
    ∧ keepFile "" = false
    ∧ keepFile "summary/readme.md" = false :=
  ⟨(keepFile_spec "docs/my_node_modules_notes.txt").1 (by decide),
   (keepFile_spec "").2.1 rfl,
   (keepFile_spec "summary/readme.md").2.2.1 (by decide)⟩

-- Helper lemmas about recordDismissals and classifyFiles ---------------------

theorem contains_iff_mem (l : List String) (a : String) :
    l.contains a = true ↔ a ∈ l :=
  List.elem_iff

theorem mem_recordDismissals (p : String) (old td : List String) :
    p ∈ recordDismissals old td ↔ p ∈ old ∨ p ∈ td := by
  unfold recordDismissals
  rw [mem_jsSetDedup]
  exact List.mem_append

theorem classifyFiles_cons_missing (fsys : FSView) (dism rest m s : List String)
    (rel : String)
    (hx : fsys.artifactExists rel = false)
    (hrec : classifyFiles fsys dism rest = Except.ok (m, s)) :
    classifyFiles fsys dism (rel :: rest) = Except.ok (rel :: m, s) := by
  rw [classifyFiles, if_neg (by rw [hx]; exact Bool.false_ne_true), hrec]

theorem classifyFiles_cons_stale (fsys : FSView) (dism rest m s : List String)
    (rel : String) (smt amt : Nat)
    (hx : fsys.artifactExists rel = true)
    (hs : fsys.sourceStat rel = some smt)
    (ha : fsys.artifactStat rel = some amt)
    (hrec : classifyFiles fsys dism rest = Except.ok (m, s))
    (hcond : (decide (amt < smt) && !(dism.contains rel)) = true) :
    classifyFiles fsys dism (rel :: rest) = Except.ok (m, rel :: s) := by
  rw [classifyFiles, if_pos hx, hs, ha]
  dsimp only
  rw [hrec]
  dsimp only
  rw [if_pos hcond]

theorem classifyFiles_cons_keep (fsys : FSView) (dism rest m s : List String)
    (rel : String) (smt amt : Nat)
    (hx : fsys.artifactExists rel = true)
    (hs : fsys.sourceStat rel = some smt)
    (ha : fsys.artifactStat rel = some amt)
    (hrec : classifyFiles fsys dism rest = Except.ok (m, s))
    (hcond : (decide (amt < smt) && !(dism.contains rel)) = false) :
    classifyFiles fsys dism (rel :: rest) = Except.ok (m, s) := by
  rw [classifyFiles, if_pos hx, hs, ha]
  dsimp only
  rw [hrec]
  dsimp only
  rw [if_neg (by rw [hcond]; exact Bool.false_ne_true)]

theorem stale_not_dismissed (fsys : FSView) (dism files m s : List String)
    (hrun : classifyFiles fsys dism files = Except.ok (m, s)) :
    ∀ y ∈ s, dism.contains y = false := by
  induction files generalizing m s with
  | nil =>
    simp only [classifyFiles, Except.ok.injEq, Prod.mk.injEq] at hrun
    rw [← hrun.2]
    simp
  | cons x rest ih =>
    rw [classifyFiles] at hrun
    split at hrun
    · split at hrun
      · rename_i smt2 amt2 hs2 ha2
        split at hrun
        · simp at hrun
        · rename_i m1 s1 hrec
          split at hrun
          · rename_i hcond
            simp only [Except.ok.injEq, Prod.mk.injEq] at hrun
            rw [← hrun.2]
            intro y hy
            rcases List.mem_cons.mp hy with heq | hy2
            · subst heq
              simp only [Bool.and_eq_true, Bool.not_eq_true'] at hcond
              exact hcond.2
            · exact ih m1 s1 hrec y hy2
          · simp only [Except.ok.injEq, Prod.mk.injEq] at hrun
            rw [← hrun.2]
            exact ih m1 s1 hrec
      · simp at hrun
    · split at hrun
      · simp at hrun
      · rename_i m1 s1 hrec
        simp only [Except.ok.injEq, Prod.mk.injEq] at hrun
        rw [← hrun.2]
        exact ih m1 s1 hrec

/-- Re-running the pass with an enlarged dismissal set that covers every
previously stale path keeps the missing list and empties the stale list. -/
theorem rerun_with_dismissals (fsys : FSView) (d d2 files m s : List String)
    (hrun : classifyFiles fsys d files = Except.ok (m, s))
    (hsub : ∀ y, d.contains y = true → d2.contains y = true)
    (hstale : ∀ y ∈ s, d2.contains y = true) :
    classifyFiles fsys d2 files = Except.ok (m, []) := by
  induction files generalizing m s with
  | nil =>
    simp only [classifyFiles, Except.ok.injEq, Prod.mk.injEq] at hrun
    rw [← hrun.1]
    simp [classifyFiles]
  | cons x rest ih =>
    rw [classifyFiles] at hrun
    split at hrun
    · rename_i hx
      split at hrun
      · rename_i smt2 amt2 hs2 ha2
        split at hrun
        · simp at hrun
        · rename_i m1 s1 hrec
          split at hrun
          · rename_i hcond
            simp only [Except.ok.injEq, Prod.mk.injEq] at hrun
            have hxd2 : d2.contains x = true :=
              hstale x (by rw [← hrun.2]; exact List.mem_cons_self x s1)
            have hrec2 := ih m1 s1 hrec
              (fun y hy => hstale y (by rw [← hrun.2]; exact List.mem_cons_of_mem x hy))
            rw [← hrun.1]
            exact classifyFiles_cons_keep fsys d2 rest m1 [] x smt2 amt2 hx hs2 ha2 hrec2
              (by rw [hxd2]; simp)
          · rename_i hcond
            simp only [Except.ok.injEq, Prod.mk.injEq] at hrun
            have hrec2 := ih m1 s1 hrec
              (fun y hy => hstale y (by rw [← hrun.2]; exact hy))
            rw [← hrun.1]
            apply classifyFiles_cons_keep fsys d2 rest m1 [] x smt2 amt2 hx hs2 ha2 hrec2
            cases hlt : decide (amt2 < smt2) with
            | false => simp [hlt]
            | true =>
              cases hdx : d.contains x with
              | true => rw [hsub x hdx]; simp
              | false => exact absurd (by rw [hlt, hdx]; rfl) hcond
      · simp at hrun
    · rename_i hx
      split at hrun
      · simp at hrun
      · rename_i m1 s1 hrec
        simp only [Except.ok.injEq, Prod.mk.injEq] at hrun
        have hrec2 := ih m1 s1 hrec
          (fun y hy => hstale y (by rw [← hrun.2]; exact hy))
        rw [← hrun.1]
        exact classifyFiles_cons_missing fsys d2 rest m1 [] x (by simpa using hx) hrec2

theorem runAll_cons_ok (inp : ScopeInput) (rest : List ScopeInput)
    (r : List String × List String × List String)
    (h : scopeStep inp.gitResult inp.fsys inp.dism inp.action inp.saveOk = Except.ok r) :
    runAll (inp :: rest) =
      match runAll rest with
      | Except.error e => Except.error e
      | Except.ok rs => Except.ok (r :: rs) := by
  rw [runAll, h]

/-- C1: a tracked file whose summary artifact exists, whose source modification
time is strictly greater than the artifact's, and whose relative path is
absent from the scope's dismissal set, is classified stale and appears in the
reported outdated list of a completed pass. -/
theorem stale_reported (fsys : FSView) (dism files m s : List String)
    (rel : String) (smt amt : Nat)
    (hrun : classifyFiles fsys dism files = Except.ok (m, s))
    (hmem : rel ∈ files)
    (hex : fsys.artifactExists rel = true)
    (hsrc : fsys.sourceStat rel = some smt)
    (hart : fsys.artifactStat rel = some amt)
    (hlt : amt < smt)
    (hnd : dism.contains rel = false) :
    rel ∈ s := by
  induction files generalizing m s with
  | nil => simp at hmem
  | cons x rest ih =>
    rw [classifyFiles] at hrun
    split at hrun
    · rename_i hx
      split at hrun
      · rename_i smt2 amt2 hs2 ha2
        split at hrun
        · simp at hrun
        · rename_i m1 s1 hrec
          rcases List.mem_cons.mp hmem with heq | hmem2
          · subst heq
            rw [hsrc] at hs2
            rw [hart] at ha2
            obtain rfl : smt2 = smt := by injection hs2 with h; exact h.symm
            obtain rfl : amt2 = amt := by injection ha2 with h; exact h.symm
            rw [if_pos (by rw [decide_eq_true hlt, hnd]; rfl)] at hrun
            simp only [Except.ok.injEq, Prod.mk.injEq] at hrun
            rw [← hrun.2]
            exact List.mem_cons_self rel s1
          · split at hrun
            · simp only [Except.ok.injEq, Prod.mk.injEq] at hrun
              rw [← hrun.2]
              exact List.mem_cons_of_mem x (ih m1 s1 hrec hmem2)
            · simp only [Except.ok.injEq, Prod.mk.injEq] at hrun
              rw [← hrun.2]
              exact ih m1 s1 hrec hmem2
      · simp at hrun
    · rename_i hx
      split at hrun
      · simp at hrun
      · rename_i m1 s1 hrec
        have hxr : x ≠ rel := by
          intro h
          rw [h, hex] at hx
          simp at hx
        rcases List.mem_cons.mp hmem with heq | hmem2
        · exact absurd heq.symm hxr
        · simp only [Except.ok.injEq, Prod.mk.injEq] at hrun
          rw [← hrun.2]
          exact ih m1 s1 hrec hmem2

/-- Witness for C1: on the concrete view, `b.txt` (source 10, artifact 5, not
dismissed) is reported stale. -/
theorem stale_reported_witness :
    classifyFiles fsW1 [] wfiles = Except.ok (["a.txt"], ["b.txt"])
    ∧ "b.txt" ∈ ["b.txt"] :=
  ⟨rfl,
   stale_reported fsW1 [] wfiles ["a.txt"] ["b.txt"] "b.txt" 10 5 rfl
     (by simp [wfiles]) rfl rfl rfl (by decide) rfl⟩

/-- C2: a tracked file whose artifact exists with modification time exactly
equal to the source modification time is current: it appears in neither the
missing list nor the stale list of a completed pass. -/
theorem equal_times_current (fsys : FSView) (dism files m s : List String)
    (rel : String) (t : Nat)
    (hrun : classifyFiles fsys dism files = Except.ok (m, s))
    (hex : fsys.artifactExists rel = true)
    (hsrc : fsys.sourceStat rel = some t)
    (hart : fsys.artifactStat rel = some t) :
    rel ∉ m ∧ rel ∉ s := by
  induction files generalizing m s with
  | nil =>
    simp only [classifyFiles, Except.ok.injEq, Prod.mk.injEq] at hrun
    rw [← hrun.1, ← hrun.2]
    simp
  | cons x rest ih =>
    rw [classifyFiles] at hrun
    split at hrun
    · rename_i hx
      split at hrun
      · rename_i smt2 amt2 hs2 ha2
        split at hrun
        · simp at hrun
        · rename_i m1 s1 hrec
          obtain ⟨ihm, ihs⟩ := ih m1 s1 hrec
          split at hrun
          · rename_i hcond
            simp only [Except.ok.injEq, Prod.mk.injEq] at hrun
            rw [← hrun.1, ← hrun.2]
            refine ⟨ihm, ?_⟩
            intro hmem
            rcases List.mem_cons.mp hmem with heq | hmem2
            · subst heq
              rw [hsrc] at hs2
              rw [hart] at ha2
              obtain rfl : smt2 = t := by injection hs2 with h; exact h.symm
              obtain rfl : amt2 = smt2 := by injection ha2 with h; exact h.symm
              simp at hcond
            · exact ihs hmem2
          · simp only [Except.ok.injEq, Prod.mk.injEq] at hrun
            rw [← hrun.1, ← hrun.2]
            exact ⟨ihm, ihs⟩
      · simp at hrun
    · rename_i hx
      split at hrun
      · simp at hrun
      · rename_i m1 s1 hrec
        obtain ⟨ihm, ihs⟩ := ih m1 s1 hrec
        simp only [Except.ok.injEq, Prod.mk.injEq] at hrun
        rw [← hrun.1, ← hrun.2]
        refine ⟨?_, ihs⟩
        intro hmem
        rcases List.mem_cons.mp hmem with heq | hmem2
        · subst heq
          rw [hex] at hx
          simp at hx
        · exact ihm hmem2

/-- Witness for C2: `c.txt` (source 7, artifact 7) is in neither report. -/
theorem equal_times_current_witness :
    classifyFiles fsW1 [] wfiles = Except.ok (["a.txt"], ["b.txt"])
    ∧ ("c.txt" ∉ ["a.txt"] ∧ "c.txt" ∉ ["b.txt"]) :=
  ⟨rfl, equal_times_current fsW1 [] wfiles ["a.txt"] ["b.txt"] "c.txt" 7 rfl rfl rfl rfl⟩

/-- C3: a tracked file whose artifact is strictly older than its source but
whose path is in the scope's dismissal set is excluded from the reported stale
list; moreover, after dismissing a pass's findings, re-running classification
on unchanged files yields an empty stale list (and the same missing list). -/
theorem dismissed_excluded_and_rerun_empty (fsys : FSView) (d files m s : List String)
    (hrun : classifyFiles fsys d files = Except.ok (m, s)) :
    (∀ rel smt amt, fsys.artifactExists rel = true → fsys.sourceStat rel = some smt →
      fsys.artifactStat rel = some amt → amt < smt → d.contains rel = true → rel ∉ s)
    ∧ classifyFiles fsys (recordDismissals d (m ++ s)) files = Except.ok (m, []) := by
  constructor
  · intro rel smt amt _ _ _ _ hd hmem
    have hfalse := stale_not_dismissed fsys d files m s hrun rel hmem
    rw [hd] at hfalse
    exact Bool.noConfusion hfalse
  · apply rerun_with_dismissals fsys d _ files m s hrun
    · intro y hy
      exact (contains_iff_mem _ y).mpr
        ((mem_recordDismissals y d (m ++ s)).mpr (Or.inl ((contains_iff_mem d y).mp hy)))
    · intro y hy
      exact (contains_iff_mem _ y).mpr
        ((mem_recordDismissals y d (m ++ s)).mpr (Or.inr (List.mem_append_right m hy)))

/-- Witness for C3: dismissing the findings of the pass over `fsW1` and
re-running yields an empty stale list. -/
theorem dismissed_excluded_and_rerun_empty_witness :
    classifyFiles fsW1 [] wfiles = Except.ok (["a.txt"], ["b.txt"])
    ∧ classifyFiles fsW1 (recordDismissals [] (["a.txt"] ++ ["b.txt"])) wfiles =
        Except.ok (["a.txt"], []) :=
  ⟨rfl, (dismissed_excluded_and_rerun_empty fsW1 [] wfiles ["a.txt"] ["b.txt"] rfl).2⟩

/-- C4: a tracked file with no summary artifact is reported missing in a
completed pass, for every dismissal set (dismissal never suppresses a missing
finding). -/
theorem missing_reported (fsys : FSView) (dism files m s : List String)
    (rel : String)
    (hrun : classifyFiles fsys dism files = Except.ok (m, s))
    (hmem : rel ∈ files)
    (hex : fsys.artifactExists rel = false) :
    rel ∈ m := by
  induction files generalizing m s with
  | nil => simp at hmem
  | cons x rest ih =>
    rw [classifyFiles] at hrun
    split at hrun
    · rename_i hx
      have hxr : x ≠ rel := by
        intro h
        rw [h, hex] at hx
        simp at hx
      rcases List.mem_cons.mp hmem with heq | hmem2
      · exact absurd heq.symm hxr
      · split at hrun
        · rename_i smt2 amt2 hs2 ha2
          split at hrun
          · simp at hrun
          · rename_i m1 s1 hrec
            split at hrun
            · simp only [Except.ok.injEq, Prod.mk.injEq] at hrun
              rw [← hrun.1]
              exact ih m1 s1 hrec hmem2
            · simp only [Except.ok.injEq, Prod.mk.injEq] at hrun
              rw [← hrun.1]
              exact ih m1 s1 hrec hmem2
        · simp at hrun
    · split at hrun
      · simp at hrun
      · rename_i m1 s1 hrec
        simp only [Except.ok.injEq, Prod.mk.injEq] at hrun
        rw [← hrun.1]
        rcases List.mem_cons.mp hmem with heq | hmem2
        · exact heq ▸ List.mem_cons_self x m1
        · exact List.mem_cons_of_mem x (ih m1 s1 hrec hmem2)

/-- Witness for C4: `a.txt` has no artifact and is reported missing even with
`a.txt` in the dismissal set. -/
theorem missing_reported_witness :
    classifyFiles fsW1 ["a.txt"] wfiles = Except.ok (["a.txt"], ["b.txt"])
    ∧ "a.txt" ∈ ["a.txt"] :=
  ⟨rfl,
   missing_reported fsW1 ["a.txt"] wfiles ["a.txt"] ["b.txt"] "a.txt" rfl
     (by simp [wfiles]) rfl⟩

/-- C10: classification is deterministic: two passes over the same tracked
list, with filesystem views that agree on artifact existence and on source and
artifact modification times for every tracked file, and the same dismissal
set, produce identical missing and stale lists, in the same order. -/
theorem classify_deterministic (fv1 fv2 : FSView) (dism files : List String)
    (hagree : ∀ rel ∈ files, fv1.artifactExists rel = fv2.artifactExists rel
      ∧ fv1.sourceStat rel = fv2.sourceStat rel
      ∧ fv1.artifactStat rel = fv2.artifactStat rel) :
    classifyFiles fv1 dism files = classifyFiles fv2 dism files := by
  induction files with
  | nil => simp [classifyFiles]
  | cons x rest ih =>
    obtain ⟨h1, h2, h3⟩ := hagree x (List.mem_cons_self x rest)
    have ihr := ih (fun r hr => hagree r (List.mem_cons_of_mem x hr))
    rw [classifyFiles, classifyFiles, h1, h2, h3, ihr]

/-- Witness for C10: `fsW1` and `fsW2` differ outside `wfiles` but agree on it,
so the two passes coincide. -/
theorem classify_deterministic_witness :
    (∀ rel ∈ wfiles, fsW1.artifactExists rel = fsW2.artifactExists rel
      ∧ fsW1.sourceStat rel = fsW2.sourceStat rel
      ∧ fsW1.artifactStat rel = fsW2.artifactStat rel)
    ∧ classifyFiles fsW1 [] wfiles = classifyFiles fsW2 [] wfiles :=
  ⟨by decide, classify_deterministic fsW1 fsW2 [] wfiles (by decide)⟩

/-- Counterexample for C7: when `git ls-files` cannot run, the scope's audit is
not fatal — the pass still produces a (vacuous) classification report instead
of failing with an error. -/
theorem enumeration_failure_not_fatal :
    scopeStep (Except.error ()) fsW1 [] UserAction.ignore true = Except.ok ([], [], [])
    ∧ ∀ e : VErr,
        scopeStep (Except.error ()) fsW1 [] UserAction.ignore true ≠ Except.error e := by
  refine ⟨rfl, ?_⟩
  intro e h
  rw [show scopeStep (Except.error ()) fsW1 [] UserAction.ignore true
        = Except.ok ([], [], []) from rfl] at h
  exact Except.noConfusion h

/-- C7 (amended): if the listing mechanism cannot run, the error is logged and
the resolver returns the empty file list; the scope's pass then completes
successfully with an empty report and an unchanged dismissal set, and the run
continues with the remaining scopes. -/
theorem enumeration_failure_returns_empty (fsys : FSView) (d : List String)
    (a : UserAction) (sv : Bool) :
    getGitTrackedFiles (Except.error ()) = []
    ∧ scopeStep (Except.error ()) fsys d a sv = Except.ok ([], [], d)
    ∧ ∀ rest rs, runAll rest = Except.ok rs →
        runAll (ScopeInput.mk (Except.error ()) fsys d a sv :: rest) =
          Except.ok (([], [], d) :: rs) := by
  refine ⟨rfl, rfl, ?_⟩
  intro rest rs hr
  have h := runAll_cons_ok (ScopeInput.mk (Except.error ()) fsys d a sv) rest
    ([], [], d) rfl
  rw [h, hr]

/-- Witness for C7 (amended): a failed enumeration followed by the successful
scope `inpGood` still reports for `inpGood`. -/
theorem enumeration_failure_returns_empty_witness :
    runAll [inpGood] = Except.ok [([], ["b.txt"], [])]
    ∧ runAll (ScopeInput.mk (Except.error ()) fsW1 [] UserAction.ignore true :: [inpGood]) =
        Except.ok (([], [], []) :: [([], ["b.txt"], [])]) :=
  ⟨rfl,
   (enumeration_failure_returns_empty fsW1 [] UserAction.ignore true).2.2 [inpGood]
     [([], ["b.txt"], [])] rfl⟩

/-- Counterexample for C8: a metadata error in the first scope aborts the whole
run — the second scope, which on its own would succeed, is never audited. -/
theorem run_aborts_on_scope_error :
    runAll [inpBad, inpGood] = Except.error VErr.metadataError
    ∧ scopeStep inpGood.gitResult inpGood.fsys inpGood.dism inpGood.action inpGood.saveOk
        = Except.ok ([], ["b.txt"], [])
    ∧ ∀ rs, runAll [inpBad, inpGood] ≠ Except.ok rs := by
  refine ⟨rfl, rfl, ?_⟩
  intro rs h
  rw [show runAll [inpBad, inpGood] = Except.error VErr.metadataError from rfl] at h
  exact Except.noConfusion h

/-- C8 (amended): a scope-fatal error (metadata or persistence) is not caught
per scope: it propagates to the single top-level handler, which aborts the
entire run, so the remaining selected scopes are not audited. -/
theorem scope_error_aborts_run (inp : ScopeInput) (rest : List ScopeInput) (e : VErr)
    (h : scopeStep inp.gitResult inp.fsys inp.dism inp.action inp.saveOk = Except.error e) :
    runAll (inp :: rest) = Except.error e := by
  rw [runAll, h]

/-- Witness for C8 (amended): the metadata-error scope aborts the run whatever
follows it. -/
theorem scope_error_aborts_run_witness :
    scopeStep inpBad.gitResult inpBad.fsys inpBad.dism inpBad.action inpBad.saveOk
      = Except.error VErr.metadataError
    ∧ runAll (inpBad :: [inpGood]) = Except.error VErr.metadataError :=
  ⟨rfl, scope_error_aborts_run inpBad [inpGood] VErr.metadataError rfl⟩

/-- Witness for C5 at a concrete scope set. -/
theorem recordDismissals_idempotent_witness :
    recordDismissals (recordDismissals ["a"] ["b", "b"]) ["b", "b"]
      = recordDismissals ["a"] ["b", "b"]
    ∧ recordDismissals ["a"] ["b", "b"] = ["a", "b"] :=
  ⟨recordDismissals_idempotent ["a"] ["b", "b"], rfl⟩

/-- Witness for C6 at concrete lists. -/
theorem applyDecision_spec_witness :
    applyDecision UserAction.dismiss ["a"] ["m"] ["s"] true
      = Except.ok (["a", "m", "s"], true)
    ∧ applyDecision UserAction.ignore ["a"] ["m"] ["s"] false = Except.ok (["a"], false) :=
  ⟨((applyDecision_spec ["a"] ["m"] ["s"] false).1.1).trans (by rfl),
   (applyDecision_spec ["a"] ["m"] ["s"] false).2.2⟩
